import Mathlib

/-!
# simple-backuper: the job execution pipeline of `main.go`

A shallow embedding of `BackupCommand.Backup`, `BackupCommand.insertTemplate`
and `CommandLogger.Write`, together with the library functions they call
(`strings.ReplaceAll`, `strings.Split`, `strings.TrimRight`, `strings.Join`,
`filepath.Ext`), followed by the properties established about them.

A Go string is a sequence of bytes.  It is represented by a list of
characters, one list element per byte.  Every string operation the program
uses works byte by byte (the patterns and cut sets it passes are non-empty
ASCII literals or `"${" + key + "}"`), so nothing below depends on how bytes
group into UTF-8 sequences.
-/

set_option autoImplicit false

namespace SimpleBackuper

/-- A Go string: a sequence of bytes, one list element per byte. -/
abbrev Str := List Char

/-! ## Library functions used by `main.go` -/

/-- Scanning loop of `strings.ReplaceAll s old new` for a non-empty `old`.
The first argument counts the bytes of a match that are still to be skipped:
after a match at position `j` the scan resumes at `j + len(old)`, so matches
are found left to right and never overlap, and the inserted `new` is not
scanned. -/
def replaceScan (old new : Str) : Nat → Str → Str
  | _, [] => []
  | k + 1, _ :: cs => replaceScan old new k cs
  | 0, c :: cs =>
    if old.isPrefixOf (c :: cs) then new ++ replaceScan old new (old.length - 1) cs
    else c :: replaceScan old new 0 cs

/-- Model of `strings.ReplaceAll(s, old, new)`: every non-overlapping instance
of `old` in `s`, found left to right, is replaced by `new`.  The program only
calls it with a non-empty `old`. -/
def ReplaceAll (s old new : Str) : Str := replaceScan old new 0 s

/-- Model of `strings.Split(s, sep)` for a one-byte separator: the pieces of
`s` between consecutive separators.  The result always has at least one
element (`Split("", "=")` is `[""]`). -/
def Split : Str → Char → List Str
  | [], _ => [[]]
  | c :: cs, sep =>
    if c = sep then [] :: Split cs sep
    else
      match Split cs sep with
      | [] => [[c]]
      | p :: ps => (c :: p) :: ps

/-- Model of `strings.TrimRight(s, cutset)` for a one-byte cut set: all
trailing occurrences of the byte are removed. -/
def TrimRight (s : Str) (c : Char) : Str :=
  (s.reverse.dropWhile (fun x => x == c)).reverse

/-- The loop of `strings.Join` over `elems[1:]`: it writes `sep` and then the
element, for each element in turn. -/
def joinRest (sep : Str) : List Str → Str
  | [] => []
  | s :: ss => sep ++ s ++ joinRest sep ss

/-- Model of `strings.Join(elems, sep)`: the first element, then `sep` and the
element for each further one. -/
def Join : List Str → Str → Str
  | [], _ => []
  | e :: es, sep => e ++ joinRest sep es

/-- Backward loop of `filepath.Ext`: `rev` holds `path[0..i]` reversed (so its
head is `path[i]`) and `acc` holds `path[i+1:]`.  The loop stops at a path
separator and returns `path[i:]` at the first dot it meets. -/
def extScan : Str → Str → Str
  | [], _ => []
  | c :: rev, acc =>
    if c = '/' then []
    else if c = '.' then c :: acc
    else extScan rev (c :: acc)

/-- Model of `filepath.Ext(path)` (Unix path separator). -/
def Ext (path : Str) : Str := extScan path.reverse []

/-! ## `BackupCommand` and `insertTemplate` -/

/-- The job definition `BackupCommand`. -/
structure BackupCommand where
  Name : Str
  Schedule : Str
  Script : List Str
  FilepathToUpload : Str
  deriving DecidableEq

/-- The literal `"${BACKUP_ID}"`. -/
def tokBackupId : Str := ['$', '{', 'B', 'A', 'C', 'K', 'U', 'P', '_', 'I', 'D', '}']

/-- The literal `"${BACKUP_NAME}"`. -/
def tokBackupName : Str :=
  ['$', '{', 'B', 'A', 'C', 'K', 'U', 'P', '_', 'N', 'A', 'M', 'E', '}']

/-- The literal `"${TEMP_DIR}"`. -/
def tokTempDir : Str := ['$', '{', 'T', 'E', 'M', 'P', '_', 'D', 'I', 'R', '}']

/-- The token `fmt.Sprintf("${%s}", key)`. -/
def envToken (key : Str) : Str := '$' :: '{' :: (key ++ ['}'])

/-- The loop `for _, env := range os.Environ()` of `insertTemplate`, over the
environment snapshot `env`.  `strings.Split(env, "=")[0]` always exists;
`strings.Split(env, "=")[1]` is an index out of range, a run-time panic, when
the entry has no `=`: the result is then `none`. -/
def envLoop : Str → List Str → Option Str
  | origin, [] => some origin
  | origin, e :: es =>
    match (Split e '=')[0]?, (Split e '=')[1]? with
    | some key, some value => envLoop (ReplaceAll origin (envToken key) value) es
    | _, _ => none

/-- Model of `BackupCommand.insertTemplate(origin, id, mkdirTemp)`, with the
process environment `os.Environ()` as the explicit argument `env`.  `none` is
a run-time panic. -/
def insertTemplate (b : BackupCommand) (origin id mkdirTemp : Str) (env : List Str) :
    Option Str :=
  let origin := ReplaceAll origin tokBackupId id
  let origin := ReplaceAll origin tokBackupName b.Name
  let origin := ReplaceAll origin tokTempDir mkdirTemp
  envLoop origin env

/-! ## `CommandLogger` -/

/-- The two `slog` levels the program logs at. -/
inductive Level
  | info
  | error
  deriving DecidableEq

/-- A log record handed to the `slog` logger: its level and its message. -/
structure LogRecord where
  level : Level
  msg : Str
  deriving DecidableEq

/-- The writer `CommandLogger`.  Its logger `l` is the sink that receives the
records; the record a call emits is returned by the model of that call. -/
structure CommandLogger where
  err : Bool
  deriving DecidableEq

/-- Model of `NewCommandLoggger(l, error)`. -/
def NewCommandLoggger (error : Bool) : CommandLogger := { err := error }

/-- The literal `"SCRIPT> "`. -/
def scriptTag : Str := ['S', 'C', 'R', 'I', 'P', 'T', '>', ' ']

/-- What one call of `CommandLogger.Write` does: the record it logs and the
two results `(n int, err error)` it returns (`failed` is `err != nil`). -/
structure WriteResult where
  record : LogRecord
  n : Nat
  failed : Bool
  deriving DecidableEq

/-- Model of `CommandLogger.Write(x)`.  The results `n` and `err` are named
results that the body never assigns, and the function ends in a bare
`return`: they keep their zero values `0` and `nil`. -/
def CommandLogger.Write (p : CommandLogger) (x : Str) : WriteResult :=
  let xy := TrimRight x '\n'
  let xy := ReplaceAll xy ['\n'] ['\\', 'n']
  { record := if p.err then { level := Level.error, msg := scriptTag ++ xy }
              else { level := Level.info, msg := scriptTag ++ xy },
    n := 0,
    failed := false }

/-! ## The closure returned by `BackupCommand.Backup` -/

/-- The outcome of each stage of one run, taken as an input: what the stage
returns when the run reaches it. -/
structure Outcomes where
  /-- Result of `os.MkdirTemp`: the created directory, or `none` on error. -/
  mkdirTemp : Option Str
  /-- Whether `command.Run()` returned a nil error (the script exited zero). -/
  runOk : Bool
  /-- Whether `os.Stat` of the output path returned a nil error. -/
  statOk : Bool
  /-- Result of `mimetype.DetectFile`: the content type, or `none` on error. -/
  mime : Option Str
  /-- Whether `cli.FPutObject` returned a nil error. -/
  putOk : Bool
  deriving DecidableEq

/-- A call one run makes to the outside world, with its arguments and what it
returned.  Log records are not part of the trace. -/
inductive Event
  | MkdirTemp (pattern : Str) (result : Option Str)
  | Run (script : Str) (ok : Bool)
  | Stat (path : Str) (ok : Bool)
  | DetectFile (path : Str) (result : Option Str)
  | FPutObject (bucket key path contentType : Str) (ok : Bool)
  deriving DecidableEq

/-- What one execution of the closure leaves behind: the value of its captured
variable `b` afterwards (the next execution of the same closure starts from
it), the calls it made, and whether it ended in a run-time panic. -/
structure RunResult where
  captured : BackupCommand
  trace : List Event
  panicked : Bool
  deriving DecidableEq

/-- The loop `for i, script := range b.Script { b.Script[i] = ... }`: each
line is overwritten in place by its resolved text.  The result is the slice
after the loop and whether the loop completed; when `insertTemplate` panics
the current line and the later ones are left as they were. -/
def resolveScript (b : BackupCommand) (id mkdirTemp : Str) (env : List Str) :
    List Str → List Str × Bool
  | [] => ([], true)
  | script :: rest =>
    match insertTemplate b script id mkdirTemp env with
    | none => (script :: rest, false)
    | some r => ((resolveScript b id mkdirTemp env rest).map (fun ls => r :: ls) (fun ok => ok))

/-- The separator `" \n"` passed to `strings.Join`: a space and a newline. -/
def scriptSep : Str := [' ', '\n']

/-- The pattern `fmt.Sprintf("backup-%s-%s-", b.Name, id)`. -/
def tempPattern (name id : Str) : Str :=
  ['b', 'a', 'c', 'k', 'u', 'p', '-'] ++ name ++ ['-'] ++ id ++ ['-']

/-- The object key `fmt.Sprintf("%s-%s-%s%s", now, b.Name, id, ext)` with
`ext := filepath.Ext(path)`; `now` is the formatted current time. -/
def newFileName (now name id path : Str) : Str :=
  now ++ ['-'] ++ name ++ ['-'] ++ id ++ Ext path

/-- Model of one execution of the closure returned by
`BackupCommand.Backup(cli, bucketName)`.  `b` is the closure's captured copy
of the job as it stands when the execution starts, `env` the process
environment, `id` the generated run identifier, `now` the formatted current
time and `o` the outcome of each stage. -/
def Backup (b : BackupCommand) (bucketName : Str) (env : List Str) (id now : Str)
    (o : Outcomes) : RunResult :=
  let t0 := [Event.MkdirTemp (tempPattern b.Name id) o.mkdirTemp]
  match o.mkdirTemp with
  | none => { captured := b, trace := t0, panicked := false }
  | some dir =>
    let mkdirTemp := TrimRight dir '/'
    match resolveScript b id mkdirTemp env b.Script with
    | (script, false) => { captured := { b with Script := script }, trace := t0, panicked := true }
    | (script, true) =>
      let b1 := { b with Script := script }
      match insertTemplate b1 b1.FilepathToUpload id mkdirTemp env with
      | none => { captured := b1, trace := t0, panicked := true }
      | some file =>
        let b2 := { b1 with FilepathToUpload := file }
        let t1 := t0 ++ [Event.Run (Join b2.Script scriptSep) o.runOk]
        if o.runOk = false then { captured := b2, trace := t1, panicked := false }
        else
          let t2 := t1 ++ [Event.Stat b2.FilepathToUpload o.statOk]
          if o.statOk = false then { captured := b2, trace := t2, panicked := false }
          else
            let t3 := t2 ++ [Event.DetectFile b2.FilepathToUpload o.mime]
            match o.mime with
            | none => { captured := b2, trace := t3, panicked := false }
            | some mtype =>
              { captured := b2,
                trace := t3 ++ [Event.FPutObject bucketName
                  (newFileName now b2.Name id b2.FilepathToUpload) b2.FilepathToUpload mtype
                  o.putOk],
                panicked := false }

/-- Number of calls of the uploader `FPutObject` in a trace. -/
def uploadCalls : List Event → Nat
  | [] => 0
  | Event.FPutObject _ _ _ _ _ :: t => uploadCalls t + 1
  | _ :: t => uploadCalls t

/-! ## Definitions used to state the properties -/

/-- The name of an environment entry `NAME=value`: the text before its first
`=`. -/
def entryName (e : Str) : Str := e.takeWhile (fun x => x != '=')

/-- The value `insertTemplate` takes from an environment entry: the text
between its first `=` and its next `=` (or its end). -/
def entrySegment (e : Str) : Str :=
  ((e.dropWhile (fun x => x != '=')).drop 1).takeWhile (fun x => x != '=')

/-- The text of `s` with every newline byte replaced by the two visible bytes
backslash and `n`. -/
def escapeNewlines (s : Str) : Str :=
  s.flatMap (fun c => if c = '\n' then ['\\', 'n'] else [c])

/-- The final element of a path: the text after its last `/` (the whole path
when it has none). -/
def lastElement (p : Str) : Str := (p.reverse.takeWhile (fun x => x != '/')).reverse

/-- The extension of a path as the words describe it: the suffix of the final
element that starts at its last dot, the dot included, or the empty string
when the final element has no dot. -/
def extension (p : Str) : Str :=
  if '.' ∈ lastElement p then
    '.' :: ((lastElement p).reverse.takeWhile (fun x => x != '.')).reverse
  else []

/-- The workspace stage succeeded in a trace. -/
def workspaceCreated (t : List Event) : Prop := ∃ p d, Event.MkdirTemp p (some d) ∈ t

/-- The script stage succeeded in a trace. -/
def scriptSucceeded (t : List Event) : Prop := ∃ s, Event.Run s true ∈ t

/-- The existence check of the output file succeeded in a trace. -/
def outputFound (t : List Event) : Prop := ∃ p, Event.Stat p true ∈ t

/-- The content-type detection succeeded in a trace. -/
def typeDetected (t : List Event) : Prop := ∃ p m, Event.DetectFile p (some m) ∈ t

/-! ## Concrete jobs and outcomes used in the examples -/

/-- The job of the end-to-end scenario: name `db`, one script line writing
`out.txt` into the workspace, and that file as the output path. -/
def jobDb : BackupCommand :=
  { Name := "db".toList, Schedule := "0 3 * * *".toList,
    Script := ["echo hi > ".toList ++ tokTempDir ++ "/out.txt".toList],
    FilepathToUpload := tokTempDir ++ "/out.txt".toList }

/-- A job with the two script lines `a` and `b`. -/
def jobTwoLines : BackupCommand :=
  { Name := "db".toList, Schedule := "0 3 * * *".toList,
    Script := ["a".toList, "b".toList], FilepathToUpload := "/data/out.txt".toList }

/-- Every stage succeeds; the workspace created is `dir`. -/
def allStagesOk (dir : Str) : Outcomes :=
  { mkdirTemp := some dir, runOk := true, statOk := true,
    mime := some "text/plain".toList, putOk := true }

/-! ## Facts about the library functions -/

theorem replaceScan_skip (old new : Str) (k : Nat) (s : Str) :
    replaceScan old new k s = replaceScan old new 0 (s.drop k) := by
  induction s generalizing k with
  | nil => cases k <;> simp [replaceScan]
  | cons c cs ih =>
    cases k with
    | zero => simp
    | succ k => simp only [replaceScan, List.drop_succ_cons]; exact ih k

theorem ReplaceAll_nil (old new : Str) : ReplaceAll [] old new = [] := by
  simp [ReplaceAll, replaceScan]

/-- The scan at a non-empty input: a match of `old` at the front is replaced
by `new` and the scan resumes right after the match; otherwise the first byte
is copied and the scan moves on by one byte. -/
theorem ReplaceAll_cons (c : Char) (cs old new : Str) (hold : old ≠ []) :
    ReplaceAll (c :: cs) old new =
      if old.isPrefixOf (c :: cs) then new ++ ReplaceAll ((c :: cs).drop old.length) old new
      else c :: ReplaceAll cs old new := by
  unfold ReplaceAll
  rw [replaceScan]
  split
  · rw [replaceScan_skip]
    obtain ⟨a, t, rfl⟩ := List.exists_cons_of_ne_nil hold
    simp
  · rfl

theorem ReplaceAll_of_no_occurrence (s old new : Str) (h : ¬ old <:+: s) :
    ReplaceAll s old new = s := by
  have hold : old ≠ [] := by
    rintro rfl
    exact h List.nil_infix
  induction s with
  | nil => exact ReplaceAll_nil old new
  | cons c cs ih =>
    rw [ReplaceAll_cons c cs old new hold]
    have h1 : ¬ old <+: c :: cs := fun hp => h hp.isInfix
    have h2 : ¬ old <:+: cs := fun hi => h (List.infix_cons hi)
    rw [if_neg (by simpa using h1), ih h2]

theorem Split_ne_nil (s : Str) (sep : Char) : Split s sep ≠ [] := by
  induction s with
  | nil => simp [Split]
  | cons c cs ih =>
    rw [Split]
    split
    · simp
    · split <;> simp

/-- The pieces of `Split`: the text before the first separator, followed by
the pieces of what comes after that separator, if there is one. -/
theorem Split_eq (s : Str) (sep : Char) :
    Split s sep = s.takeWhile (fun x => x != sep) ::
      (match s.dropWhile (fun x => x != sep) with
       | [] => []
       | _ :: rest => Split rest sep) := by
  induction s with
  | nil => simp [Split]
  | cons c cs ih =>
    rw [Split]
    by_cases hc : c = sep
    · subst hc
      simp
    · rw [if_neg hc, ih]
      simp [hc]

theorem Split_head (s : Str) (sep : Char) :
    (Split s sep)[0]? = some (s.takeWhile (fun x => x != sep)) := by
  rw [Split_eq]
  simp

theorem dropWhile_ne_of_mem (s : Str) (sep : Char) (h : sep ∈ s) :
    ∃ rest, s.dropWhile (fun x => x != sep) = sep :: rest := by
  induction s with
  | nil => simp at h
  | cons c cs ih =>
    by_cases hc : c = sep
    · subst hc
      exact ⟨cs, by simp⟩
    · have hmem : sep ∈ cs := by
        rcases List.mem_cons.mp h with h1 | h1
        · exact absurd h1.symm hc
        · exact h1
      obtain ⟨rest, hrest⟩ := ih hmem
      exact ⟨rest, by simp [hc, hrest]⟩

theorem dropWhile_ne_of_not_mem (s : Str) (sep : Char) (h : sep ∉ s) :
    s.dropWhile (fun x => x != sep) = [] := by
  induction s with
  | nil => rfl
  | cons c cs ih =>
    have hc : c ≠ sep := fun e => h (by simp [e])
    have hcs : sep ∉ cs := fun e => h (List.mem_cons_of_mem _ e)
    simp [hc, ih hcs]

/-- The second piece exists exactly when the string holds a separator, and is
then the text between the first separator and the next one (or the end). -/
theorem Split_second_of_mem (s : Str) (sep : Char) (h : sep ∈ s) :
    (Split s sep)[1]? = some (((s.dropWhile (fun x => x != sep)).drop 1).takeWhile
      (fun x => x != sep)) := by
  obtain ⟨rest, hrest⟩ := dropWhile_ne_of_mem s sep h
  rw [Split_eq, hrest]
  simp only [List.getElem?_cons_succ, List.drop_succ_cons, List.drop_zero]
  exact Split_head rest sep

theorem Split_second_of_not_mem (s : Str) (sep : Char) (h : sep ∉ s) :
    (Split s sep)[1]? = none := by
  rw [Split_eq, dropWhile_ne_of_not_mem s sep h]
  rfl

/-! ## Facts about `insertTemplate` -/

theorem envLoop_cons_of_mem (origin e : Str) (es : List Str) (h : '=' ∈ e) :
    envLoop origin (e :: es) =
      envLoop (ReplaceAll origin (envToken (entryName e)) (entrySegment e)) es := by
  rw [envLoop, Split_head, Split_second_of_mem e '=' h]
  rfl

theorem envLoop_cons_of_not_mem (origin e : Str) (es : List Str) (h : '=' ∉ e) :
    envLoop origin (e :: es) = none := by
  rw [envLoop, Split_head, Split_second_of_not_mem e '=' h]

/-- The environment loop ends without a panic exactly when every entry of the
snapshot holds a `=`. -/
theorem envLoop_isSome_iff (origin : Str) (env : List Str) :
    (envLoop origin env).isSome = true ↔ ∀ e ∈ env, '=' ∈ e := by
  induction env generalizing origin with
  | nil => simp [envLoop]
  | cons e es ih =>
    by_cases h : '=' ∈ e
    · rw [envLoop_cons_of_mem origin e es h, ih]
      simp [h]
    · rw [envLoop_cons_of_not_mem origin e es h]
      simp [h]

theorem insertTemplate_isSome_iff (b : BackupCommand) (origin id mkdirTemp : Str)
    (env : List Str) :
    (insertTemplate b origin id mkdirTemp env).isSome = true ↔ ∀ e ∈ env, '=' ∈ e := by
  unfold insertTemplate
  exact envLoop_isSome_iff _ env

theorem envLoop_of_no_token (origin : Str) (env : List Str)
    (henv : ∀ e ∈ env, '=' ∈ e)
    (h : ∀ e ∈ env, ¬ envToken (entryName e) <:+: origin) :
    envLoop origin env = some origin := by
  induction env with
  | nil => rfl
  | cons e es ih =>
    rw [envLoop_cons_of_mem origin e es (henv e (by simp)),
      ReplaceAll_of_no_occurrence _ _ _ (h e (by simp))]
    exact ih (fun x hx => henv x (List.mem_cons_of_mem _ hx))
      (fun x hx => h x (List.mem_cons_of_mem _ hx))

/-- C5: a string that contains none of the three built-in tokens and no token
`${NAME}` for a NAME set in the environment (a list of `NAME=value` entries)
is returned unchanged by `insertTemplate`. -/
theorem insertTemplate_unchanged_without_tokens (b : BackupCommand)
    (s id mkdirTemp : Str) (env : List Str)
    (henv : ∀ e ∈ env, '=' ∈ e)
    (hid : ¬ tokBackupId <:+: s) (hname : ¬ tokBackupName <:+: s)
    (hdir : ¬ tokTempDir <:+: s)
    (hvars : ∀ e ∈ env, ¬ envToken (entryName e) <:+: s) :
    insertTemplate b s id mkdirTemp env = some s := by
  unfold insertTemplate
  simp only [ReplaceAll_of_no_occurrence _ _ _ hid, ReplaceAll_of_no_occurrence _ _ _ hname,
    ReplaceAll_of_no_occurrence _ _ _ hdir]
  exact envLoop_of_no_token s env henv hvars

/-! ## Facts about `CommandLogger.Write` -/

theorem TrimRight_decompose (x : Str) (c : Char) :
    ∃ k, x = TrimRight x c ++ List.replicate k c := by
  induction x using List.reverseRecOn with
  | nil => exact ⟨0, rfl⟩
  | append_singleton xs a ih =>
    by_cases ha : a = c
    · subst ha
      obtain ⟨k, hk⟩ := ih
      refine ⟨k + 1, ?_⟩
      have h1 : TrimRight (xs ++ [a]) a = TrimRight xs a := by
        simp [TrimRight]
      rw [h1, List.replicate_succ', ← List.append_assoc, ← hk]
    · refine ⟨0, ?_⟩
      simp [TrimRight, ha]

theorem TrimRight_last_ne (x : Str) (c : Char) (h : TrimRight x c ≠ []) :
    (TrimRight x c).getLast h ≠ c := by
  have := List.rdropWhile_last_not (fun y => y == c) x h
  simpa using this

theorem ReplaceAll_newline (s : Str) :
    ReplaceAll s ['\n'] ['\\', 'n'] = escapeNewlines s := by
  induction s with
  | nil => rfl
  | cons c cs ih =>
    rw [ReplaceAll_cons c cs _ _ (by simp)]
    by_cases hc : c = '\n'
    · subst hc
      simp only [List.isPrefixOf_cons₂_self, List.isPrefixOf_nil_left, if_true,
        List.length_singleton, List.drop_succ_cons, List.drop_zero, ih]
      simp [escapeNewlines]
    · have hc2 : ¬ ('\n' = c) := fun e => hc e.symm
      have hp : List.isPrefixOf ['\n'] (c :: cs) = false := by
        simp [List.isPrefixOf_cons₂, hc2]
      rw [hp, ih]
      simp [escapeNewlines, hc]

theorem newline_not_mem_escapeNewlines (s : Str) : '\n' ∉ escapeNewlines s := by
  unfold escapeNewlines
  rw [List.mem_flatMap]
  rintro ⟨a, -, ha⟩
  by_cases hc : a = '\n'
  · rw [if_pos hc] at ha
    revert ha
    decide
  · rw [if_neg hc] at ha
    exact hc (List.mem_singleton.mp ha).symm

/-- C8: the record emitted for a chunk `x` has the message `"SCRIPT> "`
followed by `x` without its trailing newlines and with each remaining newline
escaped to backslash, `n`; the message holds no newline; the level is error
exactly for a logger created for stderr, and info otherwise. -/
theorem CommandLogger_Write_record (forStderr : Bool) (x : Str) :
    ∃ y k, x = y ++ List.replicate k '\n' ∧
      (∀ h : y ≠ [], y.getLast h ≠ '\n') ∧
      ((NewCommandLoggger forStderr).Write x).record.msg = scriptTag ++ escapeNewlines y ∧
      '\n' ∉ ((NewCommandLoggger forStderr).Write x).record.msg ∧
      (((NewCommandLoggger forStderr).Write x).record.level = Level.error ↔ forStderr = true) ∧
      (((NewCommandLoggger forStderr).Write x).record.level = Level.info ↔
        forStderr = false) := by
  obtain ⟨k, hk⟩ := TrimRight_decompose x '\n'
  have hmsg : ((NewCommandLoggger forStderr).Write x).record.msg =
      scriptTag ++ escapeNewlines (TrimRight x '\n') := by
    cases forStderr <;> simp [CommandLogger.Write, NewCommandLoggger, ReplaceAll_newline]
  refine ⟨TrimRight x '\n', k, hk, TrimRight_last_ne x '\n', hmsg, ?_, ?_, ?_⟩
  · rw [hmsg, List.mem_append]
    rintro (h | h)
    · revert h
      decide
    · exact newline_not_mem_escapeNewlines _ h
  · cases forStderr <;> simp [CommandLogger.Write, NewCommandLoggger]
  · cases forStderr <;> simp [CommandLogger.Write, NewCommandLoggger]

/-! ## Facts about `filepath.Ext` and the object key -/

theorem extScan_eq (r acc : Str) :
    extScan r acc =
      if '.' ∈ r.takeWhile (fun x => x != '/') then
        '.' :: (((r.takeWhile (fun x => x != '/')).takeWhile (fun x => x != '.')).reverse ++ acc)
      else [] := by
  induction r generalizing acc with
  | nil => simp [extScan]
  | cons c r ih =>
    rw [extScan]
    by_cases h1 : c = '/'
    · subst h1
      simp
    · rw [if_neg h1]
      by_cases h2 : c = '.'
      · subst h2
        simp
      · have h3 : ¬ ('.' = c) := fun e => h2 e.symm
        rw [if_neg h2, ih]
        simp [h1, h2, h3]

theorem Ext_eq_extension (p : Str) : Ext p = extension p := by
  unfold Ext extension lastElement
  rw [extScan_eq]
  simp

/-- The final element is what follows the last `/` of the path: the path is
some text that is empty or ends in `/`, followed by the final element, which
holds no `/`. -/
theorem lastElement_spec (p : Str) :
    ∃ dirs, p = dirs ++ lastElement p ∧ '/' ∉ lastElement p ∧
      (dirs = [] ∨ ∃ d, dirs = d ++ ['/']) := by
  refine ⟨(p.reverse.dropWhile (fun x => x != '/')).reverse, ?_, ?_, ?_⟩
  · have h := List.takeWhile_append_dropWhile (fun x => x != '/') p.reverse
    have h2 := congrArg List.reverse h
    rw [List.reverse_append, List.reverse_reverse] at h2
    exact h2.symm
  · intro hmem
    have hmem2 : '/' ∈ p.reverse.takeWhile (fun x => x != '/') := by
      simpa [lastElement] using hmem
    have := List.mem_takeWhile_imp hmem2
    simp at this
  · by_cases hs : '/' ∈ p.reverse
    · obtain ⟨rest, hrest⟩ := dropWhile_ne_of_mem p.reverse '/' hs
      exact Or.inr ⟨rest.reverse, by rw [hrest]; simp⟩
    · exact Or.inl (by rw [dropWhile_ne_of_not_mem p.reverse '/' hs]; rfl)

/-- The extension is the suffix of the final element from its last dot on, or
empty when the final element holds no dot. -/
theorem extension_spec (p : Str) :
    ('.' ∉ lastElement p ∧ extension p = []) ∨
      ∃ stem rest, lastElement p = stem ++ '.' :: rest ∧ '.' ∉ rest ∧
        extension p = '.' :: rest := by
  by_cases hdot : '.' ∈ lastElement p
  · right
    have hdot2 : '.' ∈ (lastElement p).reverse := by simpa using hdot
    obtain ⟨before, hbefore⟩ := dropWhile_ne_of_mem (lastElement p).reverse '.' hdot2
    refine ⟨before.reverse, ((lastElement p).reverse.takeWhile (fun x => x != '.')).reverse,
      ?_, ?_, ?_⟩
    · have h := List.takeWhile_append_dropWhile (fun x => x != '.') (lastElement p).reverse
      rw [hbefore] at h
      have h2 := congrArg List.reverse h
      rw [List.reverse_append, List.reverse_reverse, List.reverse_cons,
        List.append_assoc] at h2
      exact h2.symm
    · intro hmem
      have hmem2 : '.' ∈ (lastElement p).reverse.takeWhile (fun x => x != '.') := by
        simpa using hmem
      have := List.mem_takeWhile_imp hmem2
      simp at this
    · rw [extension, if_pos hdot]
  · exact Or.inl ⟨hdot, by rw [extension, if_neg hdot]⟩

/-! ## Facts about one execution of the closure -/

/-- When the substitution loop completes, each line of the slice is
`insertTemplate` of the line it held before. -/
theorem resolveScript_lines (b : BackupCommand) (id mkdirTemp : Str) (env : List Str)
    (ls rs : List Str) (h : resolveScript b id mkdirTemp env ls = (rs, true)) :
    ls.map (fun l => insertTemplate b l id mkdirTemp env) = rs.map some := by
  induction ls generalizing rs with
  | nil =>
    simp only [resolveScript, Prod.mk.injEq] at h
    simp [← h.1]
  | cons l ls ih =>
    rw [resolveScript] at h
    split at h
    · simp at h
    · rename_i r hr
      cases hrest : resolveScript b id mkdirTemp env ls with
      | mk rs1 ok =>
        rw [hrest] at h
        simp only [Prod.map_apply, Prod.mk.injEq] at h
        obtain ⟨h1, h2⟩ := h
        subst h1 h2
        simp [hr, ih rs1 hrest]

/-- The substitution loop completes when every environment entry holds a
`=`. -/
theorem resolveScript_completes (b : BackupCommand) (id mkdirTemp : Str) (env : List Str)
    (henv : ∀ e ∈ env, '=' ∈ e) (ls : List Str) :
    (resolveScript b id mkdirTemp env ls).2 = true := by
  induction ls with
  | nil => rfl
  | cons l ls ih =>
    rw [resolveScript]
    have hsome := (insertTemplate_isSome_iff b l id mkdirTemp env).mpr henv
    obtain ⟨r, hr⟩ := Option.isSome_iff_exists.mp hsome
    rw [hr]
    simpa using ih

/-- C2: one execution calls the uploader at most once, and calls it exactly
when the four earlier stages (workspace creation, script run, existence check,
content-type detection) all succeeded, a stage having succeeded when the run
reached it and it returned without error.  When every environment entry holds
a `=`, so that substitution does not panic before the script stage, this is
exactly when the four outcomes given as input are successes.  A failed script
run or a missing output file gives zero uploader calls. -/
theorem Backup_uploads_iff_stages_succeeded (b : BackupCommand) (bucketName : Str)
    (env : List Str) (id now : Str) (o : Outcomes) :
    uploadCalls (Backup b bucketName env id now o).trace ≤ 1 ∧
    (uploadCalls (Backup b bucketName env id now o).trace = 1 ↔
      workspaceCreated (Backup b bucketName env id now o).trace ∧
      scriptSucceeded (Backup b bucketName env id now o).trace ∧
      outputFound (Backup b bucketName env id now o).trace ∧
      typeDetected (Backup b bucketName env id now o).trace) ∧
    ((∀ e ∈ env, '=' ∈ e) →
      (uploadCalls (Backup b bucketName env id now o).trace = 1 ↔
        o.mkdirTemp.isSome = true ∧ o.runOk = true ∧ o.statOk = true ∧
          o.mime.isSome = true)) ∧
    (o.runOk = false → uploadCalls (Backup b bucketName env id now o).trace = 0) ∧
    (o.statOk = false → uploadCalls (Backup b bucketName env id now o).trace = 0) := by
  obtain ⟨mk, runOk, statOk, mime, putOk⟩ := o
  cases mk with
  | none =>
    simp [Backup, uploadCalls, workspaceCreated, scriptSucceeded, outputFound, typeDetected]
  | some dir =>
    cases hrs : resolveScript b id (TrimRight dir '/') env b.Script with
    | mk script ok =>
      cases ok with
      | false =>
        have hno : ¬ ∀ e ∈ env, '=' ∈ e := fun henv => by
          have := resolveScript_completes b id (TrimRight dir '/') env henv b.Script
          rw [hrs] at this
          simp at this
        simp [Backup, hrs, uploadCalls, workspaceCreated, scriptSucceeded, outputFound,
          typeDetected, hno]
      | true =>
        cases hf : insertTemplate { b with Script := script } b.FilepathToUpload id
            (TrimRight dir '/') env with
        | none =>
          have hno : ¬ ∀ e ∈ env, '=' ∈ e := fun henv => by
            have := (insertTemplate_isSome_iff { b with Script := script }
              b.FilepathToUpload id (TrimRight dir '/') env).mpr henv
            rw [hf] at this
            simp at this
          simp [Backup, hrs, hf, uploadCalls, workspaceCreated, scriptSucceeded, outputFound,
            typeDetected, hno]
        | some file =>
          cases runOk <;> cases statOk <;> cases mime <;>
            simp [Backup, hrs, hf, uploadCalls, workspaceCreated, scriptSucceeded,
              outputFound, typeDetected]

theorem Join_eq_intercalate (ls : List Str) (sep : Str) :
    Join ls sep = List.intercalate sep ls := by
  cases ls with
  | nil => rfl
  | cons e es =>
    induction es generalizing e with
    | nil => simp [Join, joinRest, List.intercalate]
    | cons e1 es ih =>
      have h : e1 ++ joinRest sep es = List.intercalate sep (e1 :: es) := ih e1
      have hcons : List.intercalate sep (e :: e1 :: es) =
          e ++ (sep ++ List.intercalate sep (e1 :: es)) := by
        simp [List.intercalate]
      rw [hcons, ← h]
      simp [Join, joinRest]

theorem infix_intercalate_of_mem (sep l : Str) (ls : List Str) (h : l ∈ ls) :
    l <:+: List.intercalate sep ls := by
  induction ls with
  | nil => simp at h
  | cons e es ih =>
    cases es with
    | nil =>
      have hl : l = e := by simpa using h
      subst hl
      simp [List.intercalate]
    | cons e1 es =>
      have hcons : List.intercalate sep (e :: e1 :: es) =
          e ++ (sep ++ List.intercalate sep (e1 :: es)) := by
        simp [List.intercalate]
      rw [hcons]
      rcases List.mem_cons.mp h with h1 | h1
      · subst h1
        exact (List.prefix_append _ _).isInfix
      · exact ((ih h1).trans (List.suffix_append _ _).isInfix).trans
          (List.suffix_append _ _).isInfix

theorem insertTemplate_congr_name (b c : BackupCommand) (hname : b.Name = c.Name)
    (origin id mkdirTemp : Str) (env : List Str) :
    insertTemplate b origin id mkdirTemp env = insertTemplate c origin id mkdirTemp env := by
  simp [insertTemplate, hname]

/-- Shape of the trace of an execution that got past the substitution of the
script lines and of the output path. -/
theorem Backup_trace_cases (b : BackupCommand) (bucketName : Str) (env : List Str)
    (id now : Str) (o : Outcomes) (e : Event) (he : e ∈ (Backup b bucketName env id now o).trace)
    (hne : ∀ p r, e ≠ Event.MkdirTemp p r) :
    ∃ dir lines file, o.mkdirTemp = some dir ∧
      resolveScript b id (TrimRight dir '/') env b.Script = (lines, true) ∧
      insertTemplate b b.FilepathToUpload id (TrimRight dir '/') env = some file ∧
      (e = Event.Run (Join lines scriptSep) o.runOk ∨ e = Event.Stat file o.statOk ∨
        e = Event.DetectFile file o.mime ∨
        ∃ mtype, o.mime = some mtype ∧
          e = Event.FPutObject bucketName (newFileName now b.Name id file) file mtype o.putOk) := by
  obtain ⟨mk, runOk, statOk, mime, putOk⟩ := o
  cases mk with
  | none =>
    simp only [Backup, List.mem_singleton] at he
    exact absurd he (hne _ _)
  | some dir =>
    cases hrs : resolveScript b id (TrimRight dir '/') env b.Script with
    | mk script ok =>
      cases ok with
      | false =>
        simp only [Backup, hrs, List.mem_singleton] at he
        exact absurd he (hne _ _)
      | true =>
        have hcongr := insertTemplate_congr_name { b with Script := script } b rfl
          b.FilepathToUpload id (TrimRight dir '/') env
        cases hf : insertTemplate { b with Script := script } b.FilepathToUpload id
            (TrimRight dir '/') env with
        | none =>
          simp only [Backup, hrs, hf, List.mem_singleton] at he
          exact absurd he (hne _ _)
        | some file =>
          refine ⟨dir, script, file, rfl, hrs, by rw [← hcongr, hf], ?_⟩
          cases runOk <;> cases statOk <;> cases mime <;>
            simp [Backup, hrs, hf] at he ⊢ <;>
            rcases he with he | he <;> first
              | exact absurd he (hne _ _)
              | simp [he]
              | (rcases he with he | he <;> simp [he])

/-- C6 (amended): the script text passed to `sh -c` is the resolved lines
joined with the two-byte separator space, newline; each resolved line is
`insertTemplate` of the configured line and appears in the script as
resolved. -/
theorem Backup_shell_script_joined (b : BackupCommand) (bucketName : Str) (env : List Str)
    (id now : Str) (o : Outcomes) (script : Str) (ok : Bool)
    (h : Event.Run script ok ∈ (Backup b bucketName env id now o).trace) :
    ∃ dir lines, o.mkdirTemp = some dir ∧
      b.Script.map (fun l => insertTemplate b l id (TrimRight dir '/') env) = lines.map some ∧
      script = List.intercalate [' ', '\n'] lines ∧
      ∀ l ∈ lines, l <:+: script := by
  obtain ⟨dir, lines, file, hdir, hrs, -, hcase⟩ :=
    Backup_trace_cases b bucketName env id now o _ h (by simp)
  have hscript : script = List.intercalate [' ', '\n'] lines := by
    rcases hcase with h1 | h1 | h1 | ⟨m, -, h1⟩
    · simp only [Event.Run.injEq] at h1
      rw [h1.1, Join_eq_intercalate]
      rfl
    · simp at h1
    · simp at h1
    · simp at h1
  refine ⟨dir, lines, hdir, resolveScript_lines b id _ env _ _ hrs, hscript, ?_⟩
  intro l hl
  rw [hscript]
  exact infix_intercalate_of_mem _ l lines hl

/-- C7: the object key of an upload is the formatted time, the job name and the
run identifier joined by `-`, followed by the extension of the resolved output
path: the suffix of its final element from the last dot on, or nothing. -/
theorem Backup_object_key (b : BackupCommand) (bucketName : Str) (env : List Str)
    (id now : Str) (o : Outcomes) (bk key path ctype : Str) (ok : Bool)
    (h : Event.FPutObject bk key path ctype ok ∈ (Backup b bucketName env id now o).trace) :
    key = now ++ ['-'] ++ b.Name ++ ['-'] ++ id ++ extension path ∧
      ∃ dir, o.mkdirTemp = some dir ∧
        insertTemplate b b.FilepathToUpload id (TrimRight dir '/') env = some path := by
  obtain ⟨dir, lines, file, hdir, -, hfile, hcase⟩ :=
    Backup_trace_cases b bucketName env id now o _ h (by simp)
  rcases hcase with h1 | h1 | h1 | ⟨m, -, h1⟩
  · simp at h1
  · simp at h1
  · simp at h1
  · simp only [Event.FPutObject.injEq] at h1
    obtain ⟨-, hkey, hpath, -, -⟩ := h1
    subst hpath
    exact ⟨by rw [hkey, newFileName, Ext_eq_extension], dir, hdir, hfile⟩

/-- C1: the closure overwrites its captured job.  After a first run of the
scenario job (environment `HOME=/root`, all stages succeeding) with
identifier `run00001` in workspace `/tmp/w1`, the captured
script line and output path are the resolved ones; a second run with
identifier `run00002` in workspace `/tmp/w2` starts from them, so it runs the
script of the first workspace and uploads the file of the first workspace. -/
theorem Backup_overwrites_captured_job :
    (Backup jobDb "bkt".toList ["HOME=/root".toList] "run00001".toList "2026_01_02_02_03_04_05".toList
        (allStagesOk "/tmp/w1".toList)).captured =
      { jobDb with Script := ["echo hi > /tmp/w1/out.txt".toList],
                   FilepathToUpload := "/tmp/w1/out.txt".toList } ∧
    (Backup
        (Backup jobDb "bkt".toList ["HOME=/root".toList] "run00001".toList "2026_01_02_02_03_04_05".toList
          (allStagesOk "/tmp/w1".toList)).captured
        "bkt".toList ["HOME=/root".toList] "run00002".toList "2026_01_03_03_03_04_05".toList
        (allStagesOk "/tmp/w2".toList)).trace =
      [Event.MkdirTemp "backup-db-run00002-".toList (some "/tmp/w2".toList),
       Event.Run "echo hi > /tmp/w1/out.txt".toList true,
       Event.Stat "/tmp/w1/out.txt".toList true,
       Event.DetectFile "/tmp/w1/out.txt".toList (some "text/plain".toList),
       Event.FPutObject "bkt".toList "2026_01_03_03_03_04_05-db-run00002.txt".toList
         "/tmp/w1/out.txt".toList "text/plain".toList true] := by
  decide

/-- C3: with the environment entry `DSN=host=db`, the token `${DSN}` resolves
to `host`, the text between the first and the second `=`, not to the whole
value `host=db`. -/
theorem insertTemplate_truncates_value_at_equals :
    insertTemplate jobDb (envToken "DSN".toList) "run00001".toList "/tmp/w1".toList
        ["DSN=host=db".toList] = some "host".toList ∧
      "host".toList ≠ "host=db".toList := by
  decide

/-- C6 (counterexample): for the resolved lines `a` and `b` the script passed
to `sh -c` is `a`, space, newline, `b`, which is not `a`, newline, `b`. -/
theorem Backup_shell_script_has_space_before_newline :
    resolveScript jobTwoLines "run00001".toList "/tmp/w1".toList [] jobTwoLines.Script =
        (["a".toList, "b".toList], true) ∧
      (Backup jobTwoLines "bkt".toList [] "run00001".toList "2026_01_02_02_03_04_05".toList
          (allStagesOk "/tmp/w1".toList)).trace.take 2 =
        [Event.MkdirTemp "backup-db-run00001-".toList (some "/tmp/w1".toList),
         Event.Run ['a', ' ', '\n', 'b'] true] ∧
      ['a', ' ', '\n', 'b'] ≠ List.intercalate ['\n'] ["a".toList, "b".toList] := by
  decide

/-- C9: for the chunk `hi` followed by a newline, three bytes long, `Write`
returns `n = 0` with a nil error. -/
theorem CommandLogger_Write_reports_zero_bytes :
    ((NewCommandLoggger false).Write ['h', 'i', '\n']).n = 0 ∧
      ((NewCommandLoggger false).Write ['h', 'i', '\n']).failed = false ∧
      ['h', 'i', '\n'].length = 3 := by
  decide

/-- C10: with the environment entry `FOO`, which holds no `=`, `insertTemplate`
ends in the index-out-of-range panic. -/
theorem insertTemplate_panics_on_entry_without_equals :
    insertTemplate jobDb "echo hi".toList "run00001".toList "/tmp/w1".toList
        ["HOME=/root".toList, "FOO".toList] = none := by
  decide

/-! ## Instances at concrete inputs -/

/-- C2 at the scenario job: all four stages succeed and the uploader is called
once; with a failing script it is not called. -/
theorem Backup_uploads_iff_stages_succeeded_witness :
    uploadCalls (Backup jobDb "bkt".toList ["HOME=/root".toList] "run00001".toList
        "2026_01_02_02_03_04_05".toList (allStagesOk "/tmp/w1".toList)).trace = 1 ∧
      uploadCalls (Backup jobDb "bkt".toList ["HOME=/root".toList] "run00001".toList
        "2026_01_02_02_03_04_05".toList
        { allStagesOk "/tmp/w1".toList with runOk := false }).trace = 0 :=
  ⟨((Backup_uploads_iff_stages_succeeded jobDb "bkt".toList ["HOME=/root".toList]
      "run00001".toList "2026_01_02_02_03_04_05".toList
      (allStagesOk "/tmp/w1".toList)).2.2.1 (by decide)).mpr (by decide),
   (Backup_uploads_iff_stages_succeeded jobDb "bkt".toList ["HOME=/root".toList]
      "run00001".toList "2026_01_02_02_03_04_05".toList
      { allStagesOk "/tmp/w1".toList with runOk := false }).2.2.2.1 rfl⟩

/-- C5 at a script line whose only token is `${DOES_NOT_EXIST}`, with
`DOES_NOT_EXIST` unset: the line is returned unchanged. -/
theorem insertTemplate_unchanged_without_tokens_witness :
    insertTemplate jobDb ("echo ".toList ++ envToken "DOES_NOT_EXIST".toList)
        "run00001".toList "/tmp/w1".toList ["HOME=/root".toList, "PATH=/bin".toList] =
      some ("echo ".toList ++ envToken "DOES_NOT_EXIST".toList) :=
  insertTemplate_unchanged_without_tokens jobDb
    ("echo ".toList ++ envToken "DOES_NOT_EXIST".toList) "run00001".toList "/tmp/w1".toList
    ["HOME=/root".toList, "PATH=/bin".toList]
    (by decide) (by decide) (by decide) (by decide) (by decide)

/-- C6 (amended) at the job with the two lines `a` and `b`. -/
theorem Backup_shell_script_joined_witness :
    ∃ dir lines, (allStagesOk "/tmp/w1".toList).mkdirTemp = some dir ∧
      jobTwoLines.Script.map
          (fun l => insertTemplate jobTwoLines l "run00001".toList (TrimRight dir '/') []) =
        lines.map some ∧
      ['a', ' ', '\n', 'b'] = List.intercalate [' ', '\n'] lines ∧
      ∀ l ∈ lines, l <:+: ['a', ' ', '\n', 'b'] :=
  Backup_shell_script_joined jobTwoLines "bkt".toList [] "run00001".toList
    "2026_01_02_02_03_04_05".toList (allStagesOk "/tmp/w1".toList)
    ['a', ' ', '\n', 'b'] true (by decide)

/-- C7 at the scenario job: the output path ends in `/out.txt`, the job name is
`db`, and the key ends in `-db-run00001.txt`. -/
theorem Backup_object_key_witness :
    ("2026_01_02_02_03_04_05-db-run00001.txt".toList =
        "2026_01_02_02_03_04_05".toList ++ ['-'] ++ jobDb.Name ++ ['-'] ++ "run00001".toList ++
          extension "/tmp/w1/out.txt".toList ∧
      ∃ dir, (allStagesOk "/tmp/w1/".toList).mkdirTemp = some dir ∧
        insertTemplate jobDb jobDb.FilepathToUpload "run00001".toList (TrimRight dir '/') [] =
          some "/tmp/w1/out.txt".toList) ∧
      extension "/tmp/w1/out.txt".toList = ".txt".toList :=
  ⟨Backup_object_key jobDb "bkt".toList [] "run00001".toList "2026_01_02_02_03_04_05".toList
    (allStagesOk "/tmp/w1/".toList) "bkt".toList
    "2026_01_02_02_03_04_05-db-run00001.txt".toList "/tmp/w1/out.txt".toList
    "text/plain".toList true (by decide), by decide⟩

end SimpleBackuper
